import Mathlib

/-!
# The `counter` contract (contracts/eos)

A shallow embedding of `contracts/eos/include/counter.hpp` and
`contracts/eos/src/counter.cpp`, together with the small part of the host
library the contract calls (`name`, `require_auth`, `require_recipient`,
`check`, `print`, `multi_index::find / emplace / modify`, inline actions).

Machine integers are natural numbers; `uint64_t` arithmetic is reduced
modulo `2 ^ 64` where the source computes.
-/

namespace eosio

/-- The account identifier `eosio::name`: a wrapper around a `uint64_t`. -/
structure name where
  value : Nat
  deriving DecidableEq, Repr

/-- The digit of one character in the base-32 alphabet of names
(`.` is 0, `1`..`5` are 1..5, `a`..`z` are 6..31). -/
def char_to_value (c : Char) : Nat :=
  if 97 ≤ c.toNat ∧ c.toNat ≤ 122 then c.toNat - 97 + 6
  else if 49 ≤ c.toNat ∧ c.toNat ≤ 53 then c.toNat - 49 + 1
  else 0

/-- The literal `"..."_n` for strings of at most twelve characters: the
digits, five bits each, packed from the most significant end of 64 bits. -/
def string_to_name (str : String) : name :=
  let cs := str.toList.take 12
  ⟨(cs.foldl (fun v c => v * 32 + char_to_value c) 0) * 2 ^ (4 + 5 * (12 - cs.length))⟩

/-- A pair of an account and one of its permissions. -/
structure permission_level where
  actor : name
  permission : name
  deriving DecidableEq, Repr

/-- An action as the host sees it. The only action this contract ever
builds is `notify(name user, uint64_t value)`, so `data` is that pair. -/
structure action where
  account : name
  action_name : name
  authorization : List permission_level
  data : name × Nat
  deriving DecidableEq, Repr

/-- One argument of a call of `print`. -/
inductive print_item where
  | str (s : String)
  | account (n : name)
  | uint (v : Nat)
  deriving DecidableEq, Repr

/-- The two ways an action aborts: `require_auth` on an account that did not
authorize it, and `check` on a false condition (with its message). -/
inductive error where
  | missing_auth (account : name)
  | assert_failure (msg : String)
  deriving DecidableEq, Repr

end eosio

namespace counter

open eosio

/-- The row type `TABLE counters`. -/
structure counters where
  user : name
  value : Nat
  last_modified : Nat
  deriving DecidableEq, Repr

/-- The member `uint64_t primary_key() const { return user.value; }`. -/
def counters.primary_key (row : counters) : Nat := row.user.value

/-- The table `counters_table`: the rows the host database holds for it, each
under the primary key it was stored with. -/
structure counters_table where
  rows : List (Nat × counters)
  deriving DecidableEq, Repr

/-- An iterator that is not `end()`: the key of the row it points at and the
cached object it dereferences to. -/
structure const_iterator where
  pk : Nat
  obj : counters
  deriving DecidableEq, Repr

/-- The lookup `find(pk)`; `none` is `end()`. -/
def counters_table.find (t : counters_table) (pk : Nat) : Option const_iterator :=
  (t.rows.find? (fun e => e.1 = pk)).map (fun e => ⟨e.1, e.2⟩)

/-- The call `emplace(payer, constructor)`: the constructor fills a fresh
object, which is stored under its primary key. -/
def counters_table.emplace (t : counters_table) (constructor : counters → counters) :
    counters_table :=
  let obj := constructor ⟨⟨0⟩, 0, 0⟩
  ⟨t.rows ++ [(obj.primary_key, obj)]⟩

/-- The call `modify(itr, payer, updater)`: the updater changes the cached
object in place and the stored row under the iterator's key is rewritten.
The iterator afterwards dereferences to the updated object. -/
def counters_table.modify (t : counters_table) (itr : const_iterator)
    (updater : counters → counters) : counters_table × const_iterator :=
  let obj := updater itr.obj
  (⟨t.rows.map (fun e => if e.1 = itr.pk then (e.1, obj) else e)⟩, ⟨itr.pk, obj⟩)

/-- What the host supplies to a running action: the account the contract is
deployed on (`get_self()`), the authorizations the action was sent with, and
the value of `current_time_point().sec_since_epoch()`. -/
structure context where
  self : name
  authorization : List permission_level
  now : Nat
  deriving DecidableEq, Repr

/-- The state an action works on: the table, and what it has handed to the
host so far (required recipients, inline actions, console output). -/
structure action_state where
  table : counters_table
  recipients : List name
  inline_actions : List action
  console : List print_item
  deriving DecidableEq, Repr

/-- The state at the start of an action. -/
def action_state.start (t : counters_table) : action_state := ⟨t, [], [], []⟩

/-- Whether a list of authorizations holds one of `account` (under any of its
permissions). -/
def has_auth (authorization : List permission_level) (account : name) : Bool :=
  authorization.any (fun p => p.actor = account)

/-- The host call `require_auth(account)`. -/
def require_auth (ctx : context) (account : name) : Except error Unit :=
  if has_auth ctx.authorization account then .ok () else .error (.missing_auth account)

/-- The host call `check(pred, msg)`. -/
def check (pred : Bool) (msg : String) : Except error Unit :=
  if pred then .ok () else .error (.assert_failure msg)

/-- The host call `require_recipient(account)`. -/
def require_recipient (s : action_state) (account : name) : action_state :=
  { s with recipients := s.recipients ++ [account] }

/-- The host call `print(...)`. -/
def print (s : action_state) (items : List print_item) : action_state :=
  { s with console := s.console ++ items }

/-- The wrapper `counter::notify_action notify_act(code, {permission})`
followed by `notify_act.send(user, value)`: queues an inline `notify`. -/
def notify_action_send (s : action_state) (code : name) (permission : permission_level)
    (user : name) (value : Nat) : action_state :=
  { s with inline_actions :=
      s.inline_actions ++ [⟨code, string_to_name "notify", [permission], (user, value)⟩] }

/-- The action `counter::increment`. -/
def increment (ctx : context) (user : name) (s : action_state) : Except error action_state := do
  require_auth ctx user
  let iterator := s.table.find user.value
  match iterator with
  | none =>
    -- Create new counter
    let s := { s with table := s.table.emplace (fun row =>
      { row with user := user, value := 1, last_modified := ctx.now }) }
    -- Send notification
    let s := require_recipient s user
    pure (notify_action_send s ctx.self ⟨ctx.self, string_to_name "active"⟩ user 1)
  | some iterator =>
    -- Update existing counter
    let (table, iterator) := s.table.modify iterator (fun row =>
      { row with value := (row.value + 1) % 2 ^ 64, last_modified := ctx.now })
    let s := { s with table := table }
    -- Send notification
    let s := require_recipient s user
    pure (notify_action_send s ctx.self ⟨ctx.self, string_to_name "active"⟩ user
      iterator.obj.value)

/-- The action `counter::decrement`. The subtraction is the `uint64_t` one:
it would wrap from 0 to `2 ^ 64 - 1`. -/
def decrement (ctx : context) (user : name) (s : action_state) : Except error action_state := do
  require_auth ctx user
  let iterator := s.table.find user.value
  check iterator.isSome "Counter does not exist for this user"
  match iterator with
  | none =>
    -- not reached: on `end()` the check above has aborted
    .error (.assert_failure "Counter does not exist for this user")
  | some iterator =>
    check (decide (iterator.obj.value > 0)) "Counter cannot be negative"
    let (table, iterator) := s.table.modify iterator (fun row =>
      { row with value := (row.value + 2 ^ 64 - 1) % 2 ^ 64, last_modified := ctx.now })
    let s := { s with table := table }
    -- Send notification
    let s := require_recipient s user
    pure (notify_action_send s ctx.self ⟨ctx.self, string_to_name "active"⟩ user
      iterator.obj.value)

/-- The action `counter::reset`. -/
def reset (ctx : context) (user : name) (s : action_state) : Except error action_state := do
  require_auth ctx user
  let iterator := s.table.find user.value
  check iterator.isSome "Counter does not exist for this user"
  match iterator with
  | none =>
    -- not reached: on `end()` the check above has aborted
    .error (.assert_failure "Counter does not exist for this user")
  | some iterator =>
    let (table, _) := s.table.modify iterator (fun row =>
      { row with value := 0, last_modified := ctx.now })
    let s := { s with table := table }
    -- Send notification
    let s := require_recipient s user
    pure (notify_action_send s ctx.self ⟨ctx.self, string_to_name "active"⟩ user 0)

/-- The action `counter::getvalue`. -/
def getvalue (_ctx : context) (user : name) (s : action_state) : Except error action_state :=
  let iterator := s.table.find user.value
  match iterator with
  | some iterator =>
    pure (print s [.str "Counter value for ", .account user, .str ": ",
      .uint iterator.obj.value])
  | none =>
    pure (print s [.str "No counter found for ", .account user])

/-- The action `counter::notify`. -/
def notify (ctx : context) (user : name) (_value : Nat) (s : action_state) :
    Except error action_state := do
  require_auth ctx ctx.self
  pure (require_recipient s user)

/-- An action of this contract with its arguments. -/
inductive invocation where
  | increment (user : name)
  | decrement (user : name)
  | reset (user : name)
  | getvalue (user : name)
  | notify (user : name) (value : Nat)
  deriving DecidableEq, Repr

/-- The user an action names in its first argument. -/
def invocation.user : invocation → name
  | .increment user => user
  | .decrement user => user
  | .reset user => user
  | .getvalue user => user
  | .notify user _ => user

/-- Whether the action is one of the three that write to the table
(`increment`, `decrement`, `reset`). -/
def invocation.mutates : invocation → Bool
  | .increment _ => true
  | .decrement _ => true
  | .reset _ => true
  | .getvalue _ => false
  | .notify _ _ => false

/-- The dispatcher of the contract: runs the member function of an action. -/
def apply (ctx : context) (act : invocation) (s : action_state) : Except error action_state :=
  match act with
  | .increment user => increment ctx user s
  | .decrement user => decrement ctx user s
  | .reset user => reset ctx user s
  | .getvalue user => getvalue ctx user s
  | .notify user value => notify ctx user value s

/-- An action pushed to the contract: the authorizations it was signed with,
the host time at which it runs, and the action itself. -/
structure call where
  authorization : List permission_level
  now : Nat
  act : invocation
  deriving DecidableEq, Repr

/-- What an invocation leaves behind: the table afterwards, the error if it
aborted, the accounts marked as recipients, the inline actions that were
issued, and the console output. -/
structure outcome where
  table : counters_table
  failure : Option error
  recipients : List name
  inline_actions : List action
  console : List print_item
  deriving DecidableEq, Repr

/-- The outcome of an aborted invocation: the host commits an invocation as
a whole or not at all, so after an abort the table is the one before and
nothing was emitted. -/
def outcome.aborted (t : counters_table) (e : error) : outcome := ⟨t, some e, [], [], []⟩

/-- The host running one queued inline action: an action addressed to this
contract with the name `notify` runs `counter::notify` under the
authorization the action was built with; any other action is not this
contract's to run. -/
def run_inline (self : name) (now : Nat) (s : action_state) (a : action) :
    Except error action_state :=
  if a.account = self ∧ a.action_name = string_to_name "notify" then
    notify ⟨self, a.authorization, now⟩ a.data.1 a.data.2 s
  else
    pure s

/-- The host running the queued inline actions in order; the first failure
aborts. -/
def run_inlines (self : name) (now : Nat) (s : action_state) :
    List action → Except error action_state
  | [] => pure s
  | a :: rest => do
    let s ← run_inline self now s a
    run_inlines self now s rest

/-- The host executing one pushed action against the contract deployed on
`self` with table `t`: the action runs, then its inline actions; if either
aborts the whole invocation is rolled back. -/
def execute (self : name) (t : counters_table) (c : call) : outcome :=
  match apply ⟨self, c.authorization, c.now⟩ c.act (.start t) with
  | .error e => .aborted t e
  | .ok s =>
    match run_inlines self c.now s s.inline_actions with
    | .error e => .aborted t e
    | .ok s => ⟨s.table, none, s.recipients, s.inline_actions, s.console⟩

/-- The outcomes of a sequence of pushed actions, each run on the table the
previous one left. -/
def trace (self : name) (t : counters_table) : List call → List (call × outcome)
  | [] => []
  | c :: rest => (c, execute self t c) :: trace self (execute self t c).table rest

/-- The table after a sequence of pushed actions. -/
def run (self : name) (t : counters_table) : List call → counters_table
  | [] => t
  | c :: rest => run self (execute self t c).table rest

/-- Whether a list of host times never steps back from one entry to the
next. -/
def nondecreasing : List Nat → Bool
  | a :: b :: rest => decide (a ≤ b) && nondecreasing (b :: rest)
  | _ => true

end counter

/-! ## Sample values for worked instances -/

namespace counter.sample

open eosio

/-- The account the contract is deployed on in the worked instances. -/
def store : name := string_to_name "counter"

/-- A user. -/
def alice : name := string_to_name "alice"

/-- Another user. -/
def bob : name := string_to_name "bob"

/-- An action signed by alice under her active permission. -/
def by_alice : List permission_level := [⟨alice, string_to_name "active"⟩]

/-- An action signed by bob under his active permission. -/
def by_bob : List permission_level := [⟨bob, string_to_name "active"⟩]

/-- A table with one record, bob's, of value 4. -/
def only_bob : counters_table := ⟨[(bob.value, ⟨bob, 4, 7⟩)]⟩

/-- A table with records of bob (value 4) and alice (value `v`). -/
def both (v : Nat) : counters_table := ⟨[(bob.value, ⟨bob, 4, 7⟩), (alice.value, ⟨alice, v, 9⟩)]⟩

end counter.sample

/-! ## Lemmas on the table primitives -/

namespace counter

open eosio

theorem find_emplace (t : counters_table) (f : counters → counters) (k : Nat) :
    (t.emplace f).find k =
      (t.find k).or
        (if (f ⟨⟨0⟩, 0, 0⟩).primary_key = k then some ⟨k, f ⟨⟨0⟩, 0, 0⟩⟩ else none) := by
  simp only [counters_table.find, counters_table.emplace, List.find?_append]
  cases h : List.find? (fun e => decide (e.1 = k)) t.rows with
  | some e => simp
  | none =>
    by_cases hk : (f ⟨⟨0⟩, 0, 0⟩).primary_key = k
    · simp [List.find?, hk]
    · simp [List.find?, hk]

theorem find_modify (t : counters_table) (itr : const_iterator) (f : counters → counters)
    (k : Nat) :
    (t.modify itr f).1.find k =
      (t.find k).map (fun it => if it.pk = itr.pk then ⟨it.pk, f itr.obj⟩ else it) := by
  obtain ⟨rows⟩ := t
  simp only [counters_table.find, counters_table.modify]
  induction rows with
  | nil => simp
  | cons e rest ih =>
    obtain ⟨a, b⟩ := e
    simp only [List.map_cons, List.find?_cons] at ih ⊢
    by_cases hp : a = itr.pk
    · by_cases hk : a = k
      · simp [hk, ← hp]
      · simpa [hk, hp, Ne.symm (hp ▸ hk), hp ▸ hk] using ih
    · by_cases hk : a = k
      · simp [hk, hp, hk ▸ hp]
      · simpa [hk, hp] using ih

/-- The iterator `find` returns points at the key that was looked up. -/
theorem find_pk {t : counters_table} {k : Nat} {it : const_iterator}
    (h : t.find k = some it) : it.pk = k := by
  simp only [counters_table.find, Option.map_eq_some'] at h
  obtain ⟨e, he, rfl⟩ := h
  simpa using List.find?_some he

/-- The notification the three mutating actions queue. -/
theorem run_inlines_notify (self : name) (now : Nat) (s : action_state) (p user : name)
    (value : Nat) :
    run_inlines self now s [⟨self, string_to_name "notify", [⟨self, p⟩], (user, value)⟩] =
      .ok (require_recipient s user) := by
  simp [run_inlines, run_inline, notify, require_auth, has_auth, bind, Except.bind, pure,
    Except.pure]

theorem execute_of_apply_error {self : name} {t : counters_table} {c : call} {e : error}
    (h : apply ⟨self, c.authorization, c.now⟩ c.act (.start t) = .error e) :
    execute self t c = .aborted t e := by
  simp [execute, h]

theorem execute_of_apply_notify {self : name} {t t' : counters_table} {c : call}
    {p user : name} {value : Nat}
    (h : apply ⟨self, c.authorization, c.now⟩ c.act (.start t) =
      .ok ⟨t', [user], [⟨self, string_to_name "notify", [⟨self, p⟩], (user, value)⟩], []⟩) :
    execute self t c =
      ⟨t', none, [user, user],
        [⟨self, string_to_name "notify", [⟨self, p⟩], (user, value)⟩], []⟩ := by
  simp [execute, h, run_inlines_notify, require_recipient]

/-! ## The actions, case by case -/

theorem increment_unauthorized (ctx : context) (user : name) (s : action_state)
    (ha : has_auth ctx.authorization user = false) :
    increment ctx user s = .error (.missing_auth user) := by
  simp [increment, require_auth, ha, bind, Except.bind]

theorem increment_absent (ctx : context) (user : name) (t : counters_table)
    (ha : has_auth ctx.authorization user = true) (hf : t.find user.value = none) :
    increment ctx user (.start t) =
      .ok ⟨⟨t.rows ++ [(user.value, ⟨user, 1, ctx.now⟩)]⟩, [user],
        [⟨ctx.self, string_to_name "notify", [⟨ctx.self, string_to_name "active"⟩],
          (user, 1)⟩], []⟩ := by
  simp [increment, require_auth, ha, hf, bind, Except.bind, pure, Except.pure,
    action_state.start, require_recipient, notify_action_send, counters_table.emplace,
    counters.primary_key]

theorem increment_present (ctx : context) (user : name) (t : counters_table)
    {it : const_iterator}
    (ha : has_auth ctx.authorization user = true) (hf : t.find user.value = some it) :
    increment ctx user (.start t) =
      .ok ⟨(t.modify it (fun row =>
          { row with value := (row.value + 1) % 2 ^ 64, last_modified := ctx.now })).1, [user],
        [⟨ctx.self, string_to_name "notify", [⟨ctx.self, string_to_name "active"⟩],
          (user, (it.obj.value + 1) % 2 ^ 64)⟩], []⟩ := by
  simp [increment, require_auth, ha, hf, bind, Except.bind, pure, Except.pure,
    action_state.start, require_recipient, notify_action_send, counters_table.modify]

theorem decrement_unauthorized (ctx : context) (user : name) (s : action_state)
    (ha : has_auth ctx.authorization user = false) :
    decrement ctx user s = .error (.missing_auth user) := by
  simp [decrement, require_auth, ha, bind, Except.bind]

theorem decrement_absent (ctx : context) (user : name) (t : counters_table)
    (ha : has_auth ctx.authorization user = true) (hf : t.find user.value = none) :
    decrement ctx user (.start t) =
      .error (.assert_failure "Counter does not exist for this user") := by
  simp [decrement, require_auth, check, ha, hf, bind, Except.bind, action_state.start]

theorem decrement_zero (ctx : context) (user : name) (t : counters_table)
    {it : const_iterator}
    (ha : has_auth ctx.authorization user = true) (hf : t.find user.value = some it)
    (hv : it.obj.value = 0) :
    decrement ctx user (.start t) = .error (.assert_failure "Counter cannot be negative") := by
  simp [decrement, require_auth, check, ha, hf, hv, bind, Except.bind, action_state.start]

theorem decrement_positive (ctx : context) (user : name) (t : counters_table)
    {it : const_iterator}
    (ha : has_auth ctx.authorization user = true) (hf : t.find user.value = some it)
    (hv : 0 < it.obj.value) :
    decrement ctx user (.start t) =
      .ok ⟨(t.modify it (fun row =>
          { row with value := (row.value + 2 ^ 64 - 1) % 2 ^ 64,
                     last_modified := ctx.now })).1, [user],
        [⟨ctx.self, string_to_name "notify", [⟨ctx.self, string_to_name "active"⟩],
          (user, (it.obj.value + 2 ^ 64 - 1) % 2 ^ 64)⟩], []⟩ := by
  simp [decrement, require_auth, check, ha, hf, hv, bind, Except.bind, pure, Except.pure,
    action_state.start, require_recipient, notify_action_send, counters_table.modify]

theorem reset_unauthorized (ctx : context) (user : name) (s : action_state)
    (ha : has_auth ctx.authorization user = false) :
    reset ctx user s = .error (.missing_auth user) := by
  simp [reset, require_auth, ha, bind, Except.bind]

theorem reset_absent (ctx : context) (user : name) (t : counters_table)
    (ha : has_auth ctx.authorization user = true) (hf : t.find user.value = none) :
    reset ctx user (.start t) =
      .error (.assert_failure "Counter does not exist for this user") := by
  simp [reset, require_auth, check, ha, hf, bind, Except.bind, action_state.start]

theorem reset_present (ctx : context) (user : name) (t : counters_table)
    {it : const_iterator}
    (ha : has_auth ctx.authorization user = true) (hf : t.find user.value = some it) :
    reset ctx user (.start t) =
      .ok ⟨(t.modify it (fun row => { row with value := 0, last_modified := ctx.now })).1,
        [user],
        [⟨ctx.self, string_to_name "notify", [⟨ctx.self, string_to_name "active"⟩],
          (user, 0)⟩], []⟩ := by
  simp [reset, require_auth, check, ha, hf, bind, Except.bind, pure, Except.pure,
    action_state.start, require_recipient, notify_action_send, counters_table.modify]

theorem getvalue_eq (ctx : context) (user : name) (t : counters_table) :
    getvalue ctx user (.start t) =
      .ok ⟨t, [], [],
        match t.find user.value with
        | some it => [.str "Counter value for ", .account user, .str ": ", .uint it.obj.value]
        | none => [.str "No counter found for ", .account user]⟩ := by
  cases hf : t.find user.value <;>
    simp [getvalue, hf, print, pure, Except.pure, action_state.start]

theorem notify_eq (ctx : context) (user : name) (value : Nat) (s : action_state) :
    notify ctx user value s =
      if has_auth ctx.authorization ctx.self then .ok (require_recipient s user)
      else .error (.missing_auth ctx.self) := by
  cases ha : has_auth ctx.authorization ctx.self <;>
    simp [notify, require_auth, ha, bind, Except.bind, pure, Except.pure]

/-- The row an iterator found under `k` after `modify` through that iterator. -/
theorem find_modify_self {t : counters_table} {k : Nat} {it : const_iterator}
    (hf : t.find k = some it) (f : counters → counters) :
    (t.modify it f).1.find k = some ⟨k, f it.obj⟩ := by
  rw [find_modify, hf]
  simp [find_pk hf]

end counter

/-! ## The operations of the counter store -/

namespace counter

open eosio

/-- C1: for every table, every user `u` with no record in it and every time
`now`, `increment(u)` authorized by `u` succeeds; the table afterwards holds
a record for `u` with `value = 1` and `last_modified = now`; one notification
is issued, addressed to `u` with payload 1, and `u` is a required recipient. -/
theorem increment_first_creates_record (self : name) (t : counters_table) (u : name)
    (auth : List permission_level) (now : Nat)
    (hauth : has_auth auth u = true) (habsent : t.find u.value = none) :
    (execute self t ⟨auth, now, .increment u⟩).failure = none ∧
    (execute self t ⟨auth, now, .increment u⟩).table.find u.value =
      some ⟨u.value, ⟨u, 1, now⟩⟩ ∧
    (execute self t ⟨auth, now, .increment u⟩).inline_actions =
      [⟨self, string_to_name "notify", [⟨self, string_to_name "active"⟩], (u, 1)⟩] ∧
    u ∈ (execute self t ⟨auth, now, .increment u⟩).recipients := by
  have h := increment_absent ⟨self, auth, now⟩ u t hauth habsent
  rw [execute_of_apply_notify (c := ⟨auth, now, .increment u⟩) h]
  refine ⟨rfl, ?_, rfl, by simp⟩
  have := find_emplace t (fun _ => ⟨u, 1, now⟩) u.value
  simpa [habsent, counters_table.emplace, counters.primary_key] using this

theorem increment_first_creates_record_witness :
    has_auth sample.by_alice sample.alice = true ∧
    sample.only_bob.find sample.alice.value = none ∧
    (execute sample.store sample.only_bob
      ⟨sample.by_alice, 1000, .increment sample.alice⟩).failure = none ∧
    (execute sample.store sample.only_bob
      ⟨sample.by_alice, 1000, .increment sample.alice⟩).table.find sample.alice.value =
      some ⟨sample.alice.value, ⟨sample.alice, 1, 1000⟩⟩ ∧
    (execute sample.store sample.only_bob
      ⟨sample.by_alice, 1000, .increment sample.alice⟩).inline_actions =
      [⟨sample.store, string_to_name "notify", [⟨sample.store, string_to_name "active"⟩],
        (sample.alice, 1)⟩] ∧
    sample.alice ∈ (execute sample.store sample.only_bob
      ⟨sample.by_alice, 1000, .increment sample.alice⟩).recipients :=
  ⟨by decide, by decide,
    increment_first_creates_record sample.store sample.only_bob sample.alice sample.by_alice
      1000 (by decide) (by decide)⟩

/-- C2: for every table in which `u` has a record of value `v < 2^64 - 1` and
every time `now`, `increment(u)` authorized by `u` succeeds; the record's
value becomes `v + 1` and its `last_modified` becomes `now`; the notification
is addressed to `u` and carries the new value `v + 1`. -/
theorem increment_existing_adds_one (self : name) (t : counters_table) (u : name)
    (auth : List permission_level) (now : Nat) (it : const_iterator)
    (hauth : has_auth auth u = true) (hrec : t.find u.value = some it)
    (hv : it.obj.value < 2 ^ 64 - 1) :
    (execute self t ⟨auth, now, .increment u⟩).failure = none ∧
    (execute self t ⟨auth, now, .increment u⟩).table.find u.value =
      some ⟨u.value, ⟨it.obj.user, it.obj.value + 1, now⟩⟩ ∧
    (execute self t ⟨auth, now, .increment u⟩).inline_actions =
      [⟨self, string_to_name "notify", [⟨self, string_to_name "active"⟩],
        (u, it.obj.value + 1)⟩] ∧
    u ∈ (execute self t ⟨auth, now, .increment u⟩).recipients := by
  have hm : (it.obj.value + 1) % 2 ^ 64 = it.obj.value + 1 :=
    Nat.mod_eq_of_lt (by omega)
  have h := increment_present ⟨self, auth, now⟩ u t hauth hrec
  rw [execute_of_apply_notify (c := ⟨auth, now, .increment u⟩) h]
  refine ⟨rfl, ?_, by simp only [hm], by simp⟩
  simp only [find_modify_self hrec, hm]

theorem increment_existing_adds_one_witness :
    has_auth sample.by_alice sample.alice = true ∧
    (sample.both 41).find sample.alice.value = some ⟨sample.alice.value, ⟨sample.alice, 41, 9⟩⟩ ∧
    41 < 2 ^ 64 - 1 ∧
    (execute sample.store (sample.both 41)
      ⟨sample.by_alice, 1000, .increment sample.alice⟩).failure = none ∧
    (execute sample.store (sample.both 41)
      ⟨sample.by_alice, 1000, .increment sample.alice⟩).table.find sample.alice.value =
      some ⟨sample.alice.value, ⟨sample.alice, 41 + 1, 1000⟩⟩ ∧
    (execute sample.store (sample.both 41)
      ⟨sample.by_alice, 1000, .increment sample.alice⟩).inline_actions =
      [⟨sample.store, string_to_name "notify", [⟨sample.store, string_to_name "active"⟩],
        (sample.alice, 41 + 1)⟩] ∧
    sample.alice ∈ (execute sample.store (sample.both 41)
      ⟨sample.by_alice, 1000, .increment sample.alice⟩).recipients :=
  ⟨by decide, by decide, by decide,
    increment_existing_adds_one sample.store (sample.both 41) sample.alice sample.by_alice
      1000 ⟨sample.alice.value, ⟨sample.alice, 41, 9⟩⟩ (by decide) (by decide) (by decide)⟩

/-- C3: for every table in which `u` has a record of value `v > 0` (a
`uint64_t`, so `v < 2^64`) and every time `now`, `decrement(u)` authorized by
`u` succeeds; the record's value becomes `v - 1` without wrapping and its
`last_modified` becomes `now`; the notification is addressed to `u` with
payload `v - 1`. -/
theorem decrement_positive_subtracts_one (self : name) (t : counters_table) (u : name)
    (auth : List permission_level) (now : Nat) (it : const_iterator)
    (hauth : has_auth auth u = true) (hrec : t.find u.value = some it)
    (hpos : 0 < it.obj.value) (hwidth : it.obj.value < 2 ^ 64) :
    (execute self t ⟨auth, now, .decrement u⟩).failure = none ∧
    (execute self t ⟨auth, now, .decrement u⟩).table.find u.value =
      some ⟨u.value, ⟨it.obj.user, it.obj.value - 1, now⟩⟩ ∧
    (execute self t ⟨auth, now, .decrement u⟩).inline_actions =
      [⟨self, string_to_name "notify", [⟨self, string_to_name "active"⟩],
        (u, it.obj.value - 1)⟩] ∧
    u ∈ (execute self t ⟨auth, now, .decrement u⟩).recipients := by
  have hm : (it.obj.value + 2 ^ 64 - 1) % 2 ^ 64 = it.obj.value - 1 := by
    have e : it.obj.value + 2 ^ 64 - 1 = (it.obj.value - 1) + 2 ^ 64 := by omega
    rw [e, Nat.add_mod_right]
    exact Nat.mod_eq_of_lt (by omega)
  have h := decrement_positive ⟨self, auth, now⟩ u t hauth hrec hpos
  rw [execute_of_apply_notify (c := ⟨auth, now, .decrement u⟩) h]
  refine ⟨rfl, ?_, by simp only [hm], by simp⟩
  simp only [find_modify_self hrec, hm]

theorem decrement_positive_subtracts_one_witness :
    has_auth sample.by_alice sample.alice = true ∧
    (sample.both 41).find sample.alice.value = some ⟨sample.alice.value, ⟨sample.alice, 41, 9⟩⟩ ∧
    0 < 41 ∧ 41 < 2 ^ 64 ∧
    (execute sample.store (sample.both 41)
      ⟨sample.by_alice, 1000, .decrement sample.alice⟩).failure = none ∧
    (execute sample.store (sample.both 41)
      ⟨sample.by_alice, 1000, .decrement sample.alice⟩).table.find sample.alice.value =
      some ⟨sample.alice.value, ⟨sample.alice, 41 - 1, 1000⟩⟩ ∧
    (execute sample.store (sample.both 41)
      ⟨sample.by_alice, 1000, .decrement sample.alice⟩).inline_actions =
      [⟨sample.store, string_to_name "notify", [⟨sample.store, string_to_name "active"⟩],
        (sample.alice, 41 - 1)⟩] ∧
    sample.alice ∈ (execute sample.store (sample.both 41)
      ⟨sample.by_alice, 1000, .decrement sample.alice⟩).recipients :=
  ⟨by decide, by decide, by decide, by decide,
    decrement_positive_subtracts_one sample.store (sample.both 41) sample.alice
      sample.by_alice 1000 ⟨sample.alice.value, ⟨sample.alice, 41, 9⟩⟩
      (by decide) (by decide) (by decide) (by decide)⟩

/-- C4: for every table in which `u` has a record of value 0, `decrement(u)`
authorized by `u` fails on the check with the message "Counter cannot be
negative" (the InvariantViolation of the error taxonomy); the whole table is
as before, so `u` still has the very same record (value 0, `last_modified`
unchanged), and no notification is issued and no recipient marked. -/
theorem decrement_zero_rejected (self : name) (t : counters_table) (u : name)
    (auth : List permission_level) (now : Nat) (it : const_iterator)
    (hauth : has_auth auth u = true) (hrec : t.find u.value = some it)
    (hzero : it.obj.value = 0) :
    execute self t ⟨auth, now, .decrement u⟩ =
      ⟨t, some (.assert_failure "Counter cannot be negative"), [], [], []⟩ ∧
    (execute self t ⟨auth, now, .decrement u⟩).table.find u.value = some it := by
  have h := decrement_zero ⟨self, auth, now⟩ u t hauth hrec hzero
  rw [execute_of_apply_error (c := ⟨auth, now, .decrement u⟩) h]
  exact ⟨rfl, hrec⟩

theorem decrement_zero_rejected_witness :
    has_auth sample.by_alice sample.alice = true ∧
    (sample.both 0).find sample.alice.value = some ⟨sample.alice.value, ⟨sample.alice, 0, 9⟩⟩ ∧
    (0 : Nat) = 0 ∧
    execute sample.store (sample.both 0) ⟨sample.by_alice, 1000, .decrement sample.alice⟩ =
      ⟨sample.both 0, some (.assert_failure "Counter cannot be negative"), [], [], []⟩ ∧
    (execute sample.store (sample.both 0)
      ⟨sample.by_alice, 1000, .decrement sample.alice⟩).table.find sample.alice.value =
      some ⟨sample.alice.value, ⟨sample.alice, 0, 9⟩⟩ :=
  ⟨by decide, by decide, rfl,
    decrement_zero_rejected sample.store (sample.both 0) sample.alice sample.by_alice 1000
      ⟨sample.alice.value, ⟨sample.alice, 0, 9⟩⟩ (by decide) (by decide) rfl⟩

theorem execute_getvalue (self : name) (t : counters_table) (c : call) (u : name)
    (hc : c.act = .getvalue u) :
    execute self t c =
      ⟨t, none, [], [],
        match t.find u.value with
        | some it => [.str "Counter value for ", .account u, .str ": ", .uint it.obj.value]
        | none => [.str "No counter found for ", .account u]⟩ := by
  simp [execute, apply, hc, getvalue_eq, run_inlines, pure, Except.pure]

theorem execute_notify (self : name) (t : counters_table) (c : call) (target : name)
    (value : Nat) (hc : c.act = .notify target value) :
    execute self t c =
      if has_auth c.authorization self then ⟨t, none, [target], [], []⟩
      else ⟨t, some (.missing_auth self), [], [], []⟩ := by
  cases ha : has_auth c.authorization self <;>
    simp [execute, apply, hc, notify_eq, ha, run_inlines, pure, Except.pure,
      require_recipient, action_state.start, outcome.aborted]

/-- C5: for every table and every user `u` with no record in it, `decrement(u)`
and `reset(u)`, each authorized by `u`, fail on the check with the message
"Counter does not exist for this user" (the NotFoundError of the error
taxonomy); the table is as before, so still without a record for `u`, and
nothing is notified. `getvalue(u)`, under any authorization, reports
absence. -/
theorem absent_record_rejected (self : name) (t : counters_table) (u : name)
    (auth : List permission_level) (now : Nat)
    (hauth : has_auth auth u = true) (habsent : t.find u.value = none) :
    execute self t ⟨auth, now, .decrement u⟩ =
      ⟨t, some (.assert_failure "Counter does not exist for this user"), [], [], []⟩ ∧
    execute self t ⟨auth, now, .reset u⟩ =
      ⟨t, some (.assert_failure "Counter does not exist for this user"), [], [], []⟩ ∧
    (execute self t ⟨auth, now, .decrement u⟩).table.find u.value = none ∧
    (execute self t ⟨auth, now, .reset u⟩).table.find u.value = none ∧
    ∀ anyone : List permission_level,
      execute self t ⟨anyone, now, .getvalue u⟩ =
        ⟨t, none, [], [], [.str "No counter found for ", .account u]⟩ := by
  have hd := decrement_absent ⟨self, auth, now⟩ u t hauth habsent
  have hr := reset_absent ⟨self, auth, now⟩ u t hauth habsent
  rw [execute_of_apply_error (c := ⟨auth, now, .decrement u⟩) hd,
    execute_of_apply_error (c := ⟨auth, now, .reset u⟩) hr]
  refine ⟨rfl, rfl, habsent, habsent, fun anyone => ?_⟩
  rw [execute_getvalue self t ⟨anyone, now, .getvalue u⟩ u rfl, habsent]

theorem absent_record_rejected_witness :
    has_auth sample.by_alice sample.alice = true ∧
    sample.only_bob.find sample.alice.value = none ∧
    execute sample.store sample.only_bob ⟨sample.by_alice, 1000, .decrement sample.alice⟩ =
      ⟨sample.only_bob, some (.assert_failure "Counter does not exist for this user"),
        [], [], []⟩ ∧
    execute sample.store sample.only_bob ⟨sample.by_alice, 1000, .reset sample.alice⟩ =
      ⟨sample.only_bob, some (.assert_failure "Counter does not exist for this user"),
        [], [], []⟩ ∧
    (execute sample.store sample.only_bob
      ⟨sample.by_alice, 1000, .decrement sample.alice⟩).table.find sample.alice.value = none ∧
    (execute sample.store sample.only_bob
      ⟨sample.by_alice, 1000, .reset sample.alice⟩).table.find sample.alice.value = none ∧
    ∀ anyone : List permission_level,
      execute sample.store sample.only_bob ⟨anyone, 1000, .getvalue sample.alice⟩ =
        ⟨sample.only_bob, none, [], [],
          [.str "No counter found for ", .account sample.alice]⟩ :=
  ⟨by decide, by decide,
    absent_record_rejected sample.store sample.only_bob sample.alice sample.by_alice 1000
      (by decide) (by decide)⟩

/-- C6: for every table in which `u` has a record, whatever its value (0
included), and every time `now`, `reset(u)` authorized by `u` succeeds; the
record's value becomes 0 and its `last_modified` becomes `now`; the
notification is addressed to `u` with payload 0. -/
theorem reset_existing_zeroes (self : name) (t : counters_table) (u : name)
    (auth : List permission_level) (now : Nat) (it : const_iterator)
    (hauth : has_auth auth u = true) (hrec : t.find u.value = some it) :
    (execute self t ⟨auth, now, .reset u⟩).failure = none ∧
    (execute self t ⟨auth, now, .reset u⟩).table.find u.value =
      some ⟨u.value, ⟨it.obj.user, 0, now⟩⟩ ∧
    (execute self t ⟨auth, now, .reset u⟩).inline_actions =
      [⟨self, string_to_name "notify", [⟨self, string_to_name "active"⟩], (u, 0)⟩] ∧
    u ∈ (execute self t ⟨auth, now, .reset u⟩).recipients := by
  have h := reset_present ⟨self, auth, now⟩ u t hauth hrec
  rw [execute_of_apply_notify (c := ⟨auth, now, .reset u⟩) h]
  refine ⟨rfl, ?_, rfl, by simp⟩
  simp only [find_modify_self hrec]

theorem reset_existing_zeroes_witness :
    has_auth sample.by_alice sample.alice = true ∧
    (sample.both 0).find sample.alice.value = some ⟨sample.alice.value, ⟨sample.alice, 0, 9⟩⟩ ∧
    (execute sample.store (sample.both 0)
      ⟨sample.by_alice, 1000, .reset sample.alice⟩).failure = none ∧
    (execute sample.store (sample.both 0)
      ⟨sample.by_alice, 1000, .reset sample.alice⟩).table.find sample.alice.value =
      some ⟨sample.alice.value, ⟨sample.alice, 0, 1000⟩⟩ ∧
    (execute sample.store (sample.both 0)
      ⟨sample.by_alice, 1000, .reset sample.alice⟩).inline_actions =
      [⟨sample.store, string_to_name "notify", [⟨sample.store, string_to_name "active"⟩],
        (sample.alice, 0)⟩] ∧
    sample.alice ∈ (execute sample.store (sample.both 0)
      ⟨sample.by_alice, 1000, .reset sample.alice⟩).recipients :=
  ⟨by decide, by decide,
    reset_existing_zeroes sample.store (sample.both 0) sample.alice sample.by_alice 1000
      ⟨sample.alice.value, ⟨sample.alice, 0, 9⟩⟩ (by decide) (by decide)⟩

/-- C7: for every table and every user `u`, whether or not `u` has a record
and whatever its value: when the invocation carries no authorization of `u`,
each of `increment(u)`, `decrement(u)` and `reset(u)` fails on `require_auth`
(the AuthorizationError of the error taxonomy); the table is as before and
nothing is notified. -/
theorem unauthorized_rejected (self : name) (t : counters_table) (u : name)
    (auth : List permission_level) (now : Nat)
    (hauth : has_auth auth u = false) :
    execute self t ⟨auth, now, .increment u⟩ = ⟨t, some (.missing_auth u), [], [], []⟩ ∧
    execute self t ⟨auth, now, .decrement u⟩ = ⟨t, some (.missing_auth u), [], [], []⟩ ∧
    execute self t ⟨auth, now, .reset u⟩ = ⟨t, some (.missing_auth u), [], [], []⟩ := by
  have hi := increment_unauthorized ⟨self, auth, now⟩ u (.start t) hauth
  have hd := decrement_unauthorized ⟨self, auth, now⟩ u (.start t) hauth
  have hr := reset_unauthorized ⟨self, auth, now⟩ u (.start t) hauth
  rw [execute_of_apply_error (c := ⟨auth, now, .increment u⟩) hi,
    execute_of_apply_error (c := ⟨auth, now, .decrement u⟩) hd,
    execute_of_apply_error (c := ⟨auth, now, .reset u⟩) hr]
  exact ⟨rfl, rfl, rfl⟩

theorem unauthorized_rejected_witness :
    has_auth sample.by_bob sample.alice = false ∧
    execute sample.store (sample.both 3) ⟨sample.by_bob, 1000, .increment sample.alice⟩ =
      ⟨sample.both 3, some (.missing_auth sample.alice), [], [], []⟩ ∧
    execute sample.store (sample.both 3) ⟨sample.by_bob, 1000, .decrement sample.alice⟩ =
      ⟨sample.both 3, some (.missing_auth sample.alice), [], [], []⟩ ∧
    execute sample.store (sample.both 3) ⟨sample.by_bob, 1000, .reset sample.alice⟩ =
      ⟨sample.both 3, some (.missing_auth sample.alice), [], [], []⟩ :=
  ⟨by decide,
    unauthorized_rejected sample.store (sample.both 3) sample.alice sample.by_bob 1000
      (by decide)⟩

/-- C8: for every table, target and value, `notify(target, value)` fails if
and only if the invocation carries no authorization of the contract account
itself, and then it fails on `require_auth` (the AuthorizationError of the
error taxonomy); when it carries one it succeeds and marks `target` as a
required recipient. Either way the table is as before. -/
theorem notify_self_authorized_only (self : name) (t : counters_table) (target : name)
    (value : Nat) (auth : List permission_level) (now : Nat) :
    execute self t ⟨auth, now, .notify target value⟩ =
      (if has_auth auth self then ⟨t, none, [target], [], []⟩
       else ⟨t, some (.missing_auth self), [], [], []⟩) ∧
    ((execute self t ⟨auth, now, .notify target value⟩).failure ≠ none ↔
      has_auth auth self = false) ∧
    ((execute self t ⟨auth, now, .notify target value⟩).failure = some (.missing_auth self) ↔
      has_auth auth self = false) ∧
    (execute self t ⟨auth, now, .notify target value⟩).table = t := by
  rw [execute_notify self t ⟨auth, now, .notify target value⟩ target value rfl]
  cases ha : has_auth auth self <;> simp

/-- C9: for every table, every user `u` and every list of authorizations (the
empty one included), `getvalue(u)` does not fail, leaves the table as it was,
issues no notification and marks no recipient. What it prints holds the
stored value of the record of `u` when there is one, and is the absence
message "No counter found for " followed by `u` when there is none; that
message reads "no counter found" up to letter case. -/
theorem getvalue_pure_read (self : name) (t : counters_table) (u : name)
    (auth : List permission_level) (now : Nat) :
    (execute self t ⟨auth, now, .getvalue u⟩).failure = none ∧
    (execute self t ⟨auth, now, .getvalue u⟩).table = t ∧
    (execute self t ⟨auth, now, .getvalue u⟩).inline_actions = [] ∧
    (execute self t ⟨auth, now, .getvalue u⟩).recipients = [] ∧
    (execute self t ⟨auth, now, .getvalue u⟩).console =
      (match t.find u.value with
       | some it => [.str "Counter value for ", .account u, .str ": ", .uint it.obj.value]
       | none => [.str "No counter found for ", .account u]) ∧
    "no counter found".toList.isPrefixOf
      ("No counter found for ".toList.map Char.toLower) = true := by
  rw [execute_getvalue self t ⟨auth, now, .getvalue u⟩ u rfl]
  exact ⟨rfl, rfl, rfl, rfl, rfl, by decide⟩

end counter

/-! ## Existence of records along a sequence of invocations -/

namespace counter

open eosio

theorem isSome_find_modify (t : counters_table) (itr : const_iterator)
    (f : counters → counters) (k : Nat) :
    ((t.modify itr f).1.find k).isSome = (t.find k).isSome := by
  rw [find_modify]
  cases t.find k <;> rfl

/-- A record is in the table after an invocation exactly when it was there
before or the invocation was a successful `increment` for its key. -/
theorem execute_find_isSome (self : name) (t : counters_table) (c : call) (k : Nat) :
    ((execute self t c).table.find k).isSome = true ↔
      (t.find k).isSome = true ∨
        ((execute self t c).failure = none ∧ ∃ u, c.act = .increment u ∧ u.value = k) := by
  obtain ⟨auth, now, act⟩ := c
  cases act with
  | increment u =>
    cases ha : has_auth auth u with
    | false =>
      rw [execute_of_apply_error (c := ⟨auth, now, .increment u⟩)
        (increment_unauthorized ⟨self, auth, now⟩ u (.start t) ha)]
      simp [outcome.aborted]
    | true =>
      cases hf : t.find u.value with
      | none =>
        rw [execute_of_apply_notify (c := ⟨auth, now, .increment u⟩)
          (increment_absent ⟨self, auth, now⟩ u t ha hf)]
        have h := find_emplace t (fun _ => ⟨u, 1, now⟩) k
        simp only [counters_table.emplace, counters.primary_key] at h
        simp only [h]
        by_cases hk : u.value = k
        · cases t.find k <;> simp [hk]
        · cases t.find k <;> simp [hk]
      | some it =>
        rw [execute_of_apply_notify (c := ⟨auth, now, .increment u⟩)
          (increment_present ⟨self, auth, now⟩ u t ha hf)]
        simp only [isSome_find_modify]
        constructor
        · exact Or.inl
        · rintro (h | ⟨-, u', hu, rfl⟩)
          · exact h
          · cases hu
            simp [hf]
  | decrement u =>
    cases ha : has_auth auth u with
    | false =>
      rw [execute_of_apply_error (c := ⟨auth, now, .decrement u⟩)
        (decrement_unauthorized ⟨self, auth, now⟩ u (.start t) ha)]
      simp [outcome.aborted]
    | true =>
      cases hf : t.find u.value with
      | none =>
        rw [execute_of_apply_error (c := ⟨auth, now, .decrement u⟩)
          (decrement_absent ⟨self, auth, now⟩ u t ha hf)]
        simp [outcome.aborted]
      | some it =>
        rcases Nat.eq_zero_or_pos it.obj.value with hv | hv
        · rw [execute_of_apply_error (c := ⟨auth, now, .decrement u⟩)
            (decrement_zero ⟨self, auth, now⟩ u t ha hf hv)]
          simp [outcome.aborted]
        · rw [execute_of_apply_notify (c := ⟨auth, now, .decrement u⟩)
            (decrement_positive ⟨self, auth, now⟩ u t ha hf hv)]
          simp [isSome_find_modify]
  | reset u =>
    cases ha : has_auth auth u with
    | false =>
      rw [execute_of_apply_error (c := ⟨auth, now, .reset u⟩)
        (reset_unauthorized ⟨self, auth, now⟩ u (.start t) ha)]
      simp [outcome.aborted]
    | true =>
      cases hf : t.find u.value with
      | none =>
        rw [execute_of_apply_error (c := ⟨auth, now, .reset u⟩)
          (reset_absent ⟨self, auth, now⟩ u t ha hf)]
        simp [outcome.aborted]
      | some it =>
        rw [execute_of_apply_notify (c := ⟨auth, now, .reset u⟩)
          (reset_present ⟨self, auth, now⟩ u t ha hf)]
        simp [isSome_find_modify]
  | getvalue u =>
    rw [execute_getvalue self t ⟨auth, now, .getvalue u⟩ u rfl]
    simp
  | notify target value =>
    rw [execute_notify self t ⟨auth, now, .notify target value⟩ target value rfl]
    cases has_auth auth self <;> simp

/-- Along a sequence started on any table, a record is there at the end
exactly when it was there at the start or some `increment` for its owner
succeeded. -/
theorem run_find_isSome (self : name) (u : name) (cs : List call) :
    ∀ t : counters_table,
      ((run self t cs).find u.value).isSome = true ↔
        (t.find u.value).isSome = true ∨
          ∃ e ∈ trace self t cs, e.1.act = .increment u ∧ e.2.failure = none := by
  induction cs with
  | nil => intro t; simp [run, trace]
  | cons c rest ih =>
    intro t
    simp only [run, trace, ih, execute_find_isSome, List.mem_cons, exists_eq_or_imp]
    constructor
    · rintro ((h | ⟨hf, u', hu, hk⟩) | h)
      · exact Or.inl h
      · have : u' = u := by cases u'; cases u; simp_all
        exact Or.inr (Or.inl ⟨this ▸ hu, hf⟩)
      · exact Or.inr (Or.inr h)
    · rintro (h | ⟨hu, hf⟩ | h)
      · exact Or.inl (Or.inl h)
      · exact Or.inl (Or.inr ⟨hf, u, hu, rfl⟩)
      · exact Or.inr h

/-- C10: for every finite sequence of invocations (any actions, users and
authorizations) run from the empty table and every user `u`, a record for
`u` is in the final table if and only if the sequence holds a successful
`increment(u)`; and no invocation, on any table, removes a record that is
there. -/
theorem record_exists_iff_incremented (self : name) (cs : List call) (u : name) :
    (((run self ⟨[]⟩ cs).find u.value).isSome = true ↔
      ∃ e ∈ trace self ⟨[]⟩ cs, e.1.act = .increment u ∧ e.2.failure = none) ∧
    (∀ (t : counters_table) (c : call), (t.find u.value).isSome = true →
      ((execute self t c).table.find u.value).isSome = true) := by
  refine ⟨?_, fun t c h => (execute_find_isSome self t c u.value).mpr (Or.inl h)⟩
  rw [run_find_isSome self u cs ⟨[]⟩]
  simp [counters_table.find]

end counter

/-! ## What one invocation does to the table -/

namespace counter

open eosio

/-- The three things an invocation can do to the table: leave it as it is
(every failure, `getvalue`, `notify`), append the first record of the user
(`increment`), or rewrite value and time of the record of the user through
`modify` (the three writing actions, when they succeed). -/
theorem execute_cases (self : name) (t : counters_table) (c : call) :
    ((execute self t c).table = t ∧
      ((execute self t c).failure = none → c.act.mutates = false)) ∨
    ((execute self t c).failure = none ∧ c.act = .increment c.act.user ∧
      t.find c.act.user.value = none ∧
      (execute self t c).table =
        ⟨t.rows ++ [(c.act.user.value, ⟨c.act.user, 1, c.now⟩)]⟩) ∨
    ((execute self t c).failure = none ∧ c.act.mutates = true ∧
      ∃ it v, t.find c.act.user.value = some it ∧
        (execute self t c).table =
          (t.modify it (fun row => { row with value := v, last_modified := c.now })).1) := by
  obtain ⟨auth, now, act⟩ := c
  cases act with
  | increment u =>
    cases ha : has_auth auth u with
    | false =>
      rw [execute_of_apply_error (c := ⟨auth, now, .increment u⟩)
        (increment_unauthorized ⟨self, auth, now⟩ u (.start t) ha)]
      exact Or.inl ⟨rfl, by simp [outcome.aborted]⟩
    | true =>
      cases hf : t.find u.value with
      | none =>
        rw [execute_of_apply_notify (c := ⟨auth, now, .increment u⟩)
          (increment_absent ⟨self, auth, now⟩ u t ha hf)]
        exact Or.inr (Or.inl ⟨rfl, rfl, hf, rfl⟩)
      | some it =>
        rw [execute_of_apply_notify (c := ⟨auth, now, .increment u⟩)
          (increment_present ⟨self, auth, now⟩ u t ha hf)]
        exact Or.inr (Or.inr ⟨rfl, rfl, it, (it.obj.value + 1) % 2 ^ 64, hf, rfl⟩)
  | decrement u =>
    cases ha : has_auth auth u with
    | false =>
      rw [execute_of_apply_error (c := ⟨auth, now, .decrement u⟩)
        (decrement_unauthorized ⟨self, auth, now⟩ u (.start t) ha)]
      exact Or.inl ⟨rfl, by simp [outcome.aborted]⟩
    | true =>
      cases hf : t.find u.value with
      | none =>
        rw [execute_of_apply_error (c := ⟨auth, now, .decrement u⟩)
          (decrement_absent ⟨self, auth, now⟩ u t ha hf)]
        exact Or.inl ⟨rfl, by simp [outcome.aborted]⟩
      | some it =>
        rcases Nat.eq_zero_or_pos it.obj.value with hv | hv
        · rw [execute_of_apply_error (c := ⟨auth, now, .decrement u⟩)
            (decrement_zero ⟨self, auth, now⟩ u t ha hf hv)]
          exact Or.inl ⟨rfl, by simp [outcome.aborted]⟩
        · rw [execute_of_apply_notify (c := ⟨auth, now, .decrement u⟩)
            (decrement_positive ⟨self, auth, now⟩ u t ha hf hv)]
          exact Or.inr (Or.inr ⟨rfl, rfl, it, (it.obj.value + 2 ^ 64 - 1) % 2 ^ 64, hf, rfl⟩)
  | reset u =>
    cases ha : has_auth auth u with
    | false =>
      rw [execute_of_apply_error (c := ⟨auth, now, .reset u⟩)
        (reset_unauthorized ⟨self, auth, now⟩ u (.start t) ha)]
      exact Or.inl ⟨rfl, by simp [outcome.aborted]⟩
    | true =>
      cases hf : t.find u.value with
      | none =>
        rw [execute_of_apply_error (c := ⟨auth, now, .reset u⟩)
          (reset_absent ⟨self, auth, now⟩ u t ha hf)]
        exact Or.inl ⟨rfl, by simp [outcome.aborted]⟩
      | some it =>
        rw [execute_of_apply_notify (c := ⟨auth, now, .reset u⟩)
          (reset_present ⟨self, auth, now⟩ u t ha hf)]
        exact Or.inr (Or.inr ⟨rfl, rfl, it, 0, hf, rfl⟩)
  | getvalue u =>
    rw [execute_getvalue self t ⟨auth, now, .getvalue u⟩ u rfl]
    exact Or.inl ⟨rfl, fun _ => rfl⟩
  | notify target value =>
    rw [execute_notify self t ⟨auth, now, .notify target value⟩ target value rfl]
    cases has_auth auth self
    · exact Or.inl ⟨rfl, by simp⟩
    · exact Or.inl ⟨rfl, fun _ => rfl⟩

/-- Distinct accounts have distinct keys. -/
theorem name_value_ne {u w : name} (h : u ≠ w) : u.value ≠ w.value := by
  intro hv
  apply h
  cases u; cases w
  simp_all

/-- A lookup under another key does not see `modify`. -/
theorem find_modify_other {t : counters_table} {k j : Nat} {it : const_iterator}
    (hf : t.find j = some it) (hk : k ≠ j) (f : counters → counters) :
    (t.modify it f).1.find k = t.find k := by
  rw [find_modify]
  cases hk' : t.find k with
  | none => rfl
  | some it' =>
    have h1 := find_pk hf
    have h2 := find_pk hk'
    have : it'.pk ≠ it.pk := by rw [h1, h2]; exact hk
    simp [this]

/-- A lookup under another key does not see the appended record. -/
theorem find_append_other (t : counters_table) {k j : Nat} (row : counters) (hk : k ≠ j) :
    (⟨t.rows ++ [(j, row)]⟩ : counters_table).find k = t.find k := by
  simp only [counters_table.find, List.find?_append]
  cases h : List.find? (fun e => decide (e.1 = k)) t.rows with
  | some e => simp
  | none => simp [List.find?, Ne.symm hk]

/-- The frame of an invocation: a lookup under a key other than that of the
user the action names gives the same before and after. -/
theorem execute_find_other (self : name) (t : counters_table) (c : call) (k : Nat)
    (hk : k ≠ c.act.user.value) :
    (execute self t c).table.find k = t.find k := by
  rcases execute_cases self t c with ⟨h, -⟩ | ⟨-, -, -, h⟩ | ⟨-, -, it, v, hf, h⟩
  · rw [h]
  · rw [h]; exact find_append_other t _ hk
  · rw [h]; exact find_modify_other hf hk _

end counter

/-! ## Time of last modification -/

namespace counter

open eosio

theorem find_append (t : counters_table) (j : Nat) (row : counters) (k : Nat) :
    (⟨t.rows ++ [(j, row)]⟩ : counters_table).find k =
      (t.find k).or (if j = k then some ⟨k, row⟩ else none) := by
  simp only [counters_table.find, List.find?_append]
  cases h : List.find? (fun e => decide (e.1 = k)) t.rows with
  | some e => simp
  | none =>
    by_cases hk : j = k
    · simp [List.find?, hk]
    · simp [List.find?, hk]

/-- A failed invocation, and any `getvalue` or `notify`, leaves the whole
table as it was. -/
theorem execute_unchanged (self : name) (t : counters_table) (c : call)
    (h : (execute self t c).failure ≠ none ∨ c.act.mutates = false) :
    (execute self t c).table = t := by
  rcases execute_cases self t c with ⟨ht, -⟩ | ⟨hs, ha, -, -⟩ | ⟨hs, hm, -⟩
  · exact ht
  · rcases h with h | h
    · exact absurd hs h
    · rw [ha] at h; simp [invocation.mutates] at h
  · rcases h with h | h
    · exact absurd hs h
    · rw [hm] at h; cases h

/-- A successful writing action leaves the record of its user stamped with
the time of the invocation. -/
theorem execute_sets_time (self : name) (t : counters_table) (c : call)
    (hs : (execute self t c).failure = none) (hm : c.act.mutates = true) :
    ∃ it, (execute self t c).table.find c.act.user.value = some it ∧
      it.obj.last_modified = c.now := by
  rcases execute_cases self t c with ⟨-, h⟩ | ⟨-, -, hf, ht⟩ | ⟨-, -, it, v, hf, ht⟩
  · rw [h hs] at hm; cases hm
  · refine ⟨⟨c.act.user.value, ⟨c.act.user, 1, c.now⟩⟩, ?_, rfl⟩
    rw [ht, find_append, hf]
    simp
  · refine ⟨⟨c.act.user.value, ⟨it.obj.user, v, c.now⟩⟩, ?_, rfl⟩
    rw [ht, find_modify_self hf]

/-- No invocation at a time up to `m` stamps a record later than `m`. -/
theorem execute_time_le (self : name) (t : counters_table) (c : call) (m : Nat)
    (hb : ∀ k it, t.find k = some it → it.obj.last_modified ≤ m) (hc : c.now ≤ m) :
    ∀ k it, (execute self t c).table.find k = some it → it.obj.last_modified ≤ m := by
  intro k it'
  rcases execute_cases self t c with ⟨ht, -⟩ | ⟨-, -, -, ht⟩ | ⟨-, -, it, v, hf, ht⟩
  · rw [ht]; exact hb k it'
  · rw [ht, find_append]
    cases hk : t.find k with
    | some it0 =>
      intro h
      simp only [Option.or_some, Option.some.injEq] at h
      exact h ▸ hb k it0 hk
    | none =>
      by_cases hj : c.act.user.value = k
      · intro h
        simp only [hj, if_true, Option.or, Option.some.injEq] at h
        rw [← h]; exact hc
      · simp [hj]
  · rw [ht, find_modify]
    cases hk : t.find k with
    | none => simp
    | some it0 =>
      intro h
      simp only [Option.map_some', Option.some.injEq] at h
      by_cases hp : it0.pk = it.pk
      · rw [if_pos hp] at h
        rw [← h]; exact hc
      · rw [if_neg hp] at h
        exact h ▸ hb k it0 hk

/-- After a sequence of invocations at times up to `m`, no record is stamped
later than `m`. -/
theorem run_time_le (self : name) (m : Nat) (cs : List call) :
    ∀ t : counters_table,
      (∀ k it, t.find k = some it → it.obj.last_modified ≤ m) →
      (∀ c ∈ cs, c.now ≤ m) →
      ∀ k it, (run self t cs).find k = some it → it.obj.last_modified ≤ m := by
  induction cs with
  | nil => intro t hb _; exact hb
  | cons c rest ih =>
    intro t hb hc
    exact ih _ (execute_time_le self t c m hb (hc c (List.mem_cons_self _ _)))
      (fun d hd => hc d (List.mem_cons_of_mem _ hd))

/-- An invocation at a time not before any stamp in the table keeps every
record and does not move its stamp back. -/
theorem execute_time_mono (self : name) (t : counters_table) (c : call)
    (hb : ∀ k it, t.find k = some it → it.obj.last_modified ≤ c.now)
    (k : Nat) (it : const_iterator) (hk : t.find k = some it) :
    ∃ it', (execute self t c).table.find k = some it' ∧
      it.obj.last_modified ≤ it'.obj.last_modified := by
  rcases execute_cases self t c with ⟨ht, -⟩ | ⟨-, -, -, ht⟩ | ⟨-, -, it0, v, hf, ht⟩
  · exact ⟨it, by rw [ht, hk], le_refl _⟩
  · exact ⟨it, by rw [ht, find_append, hk]; rfl, le_refl _⟩
  · by_cases hp : it.pk = it0.pk
    · exact ⟨⟨it.pk, ⟨it0.obj.user, v, c.now⟩⟩, by rw [ht, find_modify, hk]; simp [hp],
        hb k it hk⟩
    · exact ⟨it, by rw [ht, find_modify, hk]; simp [hp], le_refl _⟩

theorem run_append (self : name) (cs ds : List call) :
    ∀ t : counters_table, run self t (cs ++ ds) = run self (run self t cs) ds := by
  induction cs with
  | nil => intro t; rfl
  | cons c rest ih =>
    intro t
    show run self (execute self t c).table (rest ++ ds) = _
    exact ih _

theorem pairwise_of_nondecreasing :
    ∀ l : List Nat, nondecreasing l = true → l.Pairwise (fun a b => a ≤ b)
  | [], _ => List.Pairwise.nil
  | [a], _ => List.pairwise_singleton _ a
  | a :: b :: rest, h => by
    simp only [nondecreasing, Bool.and_eq_true, decide_eq_true_eq] at h
    have ih := pairwise_of_nondecreasing (b :: rest) h.2
    refine List.Pairwise.cons ?_ ih
    intro x hx
    rcases List.mem_cons.mp hx with rfl | hx
    · exact h.1
    · exact le_trans h.1 (List.rel_of_pairwise_cons ih hx)

/-- The state after one more invocation is the table its execution leaves. -/
theorem run_concat (self : name) (t : counters_table) (cs : List call) (c : call) :
    run self t (cs ++ [c]) = (execute self (run self t cs) c).table := by
  rw [run_append]; rfl

/-- C11: for every sequence of invocations with non-decreasing host times,
run from the empty table, and every user `u`, at every step of the sequence:
a successful `increment`, `decrement` or `reset` on `u` leaves the record of
`u` with `last_modified` equal to the time of that invocation; a record of
`u` that is there before the step is there after it with a `last_modified`
that is not smaller; and a failed invocation, a `getvalue` or a `notify`
leaves the record of `u` as it was. -/
theorem last_modified_never_decreases (self : name) (cs : List call) (u : name)
    (hmono : nondecreasing (cs.map call.now) = true) :
    ∀ (pre post : List call) (c : call), cs = pre ++ c :: post →
      ((execute self (run self ⟨[]⟩ pre) c).failure = none → c.act.mutates = true →
          c.act.user = u →
          ∃ it, (run self ⟨[]⟩ (pre ++ [c])).find u.value = some it ∧
            it.obj.last_modified = c.now) ∧
      (∀ it, (run self ⟨[]⟩ pre).find u.value = some it →
          ∃ it', (run self ⟨[]⟩ (pre ++ [c])).find u.value = some it' ∧
            it.obj.last_modified ≤ it'.obj.last_modified) ∧
      ((execute self (run self ⟨[]⟩ pre) c).failure ≠ none ∨ c.act.mutates = false →
          (run self ⟨[]⟩ (pre ++ [c])).find u.value = (run self ⟨[]⟩ pre).find u.value) := by
  intro pre post c hcs
  rw [run_concat]
  have hpre : ∀ d ∈ pre, d.now ≤ c.now := by
    have hp := pairwise_of_nondecreasing _ hmono
    rw [hcs, List.map_append, List.map_cons, List.pairwise_append] at hp
    intro d hd
    exact hp.2.2 d.now (List.mem_map_of_mem _ hd) c.now (List.mem_cons_self _ _)
  have hb : ∀ k it, (run self ⟨[]⟩ pre).find k = some it → it.obj.last_modified ≤ c.now :=
    run_time_le self c.now pre ⟨[]⟩ (by simp [counters_table.find]) hpre
  refine ⟨fun hs hm hu => ?_, fun it hk => ?_, fun h => ?_⟩
  · subst hu
    exact execute_sets_time self _ c hs hm
  · exact execute_time_mono self _ c hb u.value it hk
  · rw [execute_unchanged self _ c h]

theorem last_modified_never_decreases_witness :
    nondecreasing
      (([⟨sample.by_alice, 10, .increment sample.alice⟩,
         ⟨sample.by_alice, 12, .increment sample.alice⟩,
         ⟨sample.by_bob, 12, .reset sample.alice⟩,
         ⟨sample.by_alice, 15, .reset sample.alice⟩] : List call).map call.now) = true ∧
    (∃ it, (run sample.store ⟨[]⟩
        ([⟨sample.by_alice, 10, .increment sample.alice⟩] ++
          [⟨sample.by_alice, 12, .increment sample.alice⟩])).find sample.alice.value = some it ∧
      it.obj.last_modified = 12) ∧
    (∃ it', (run sample.store ⟨[]⟩
        ([⟨sample.by_alice, 10, .increment sample.alice⟩] ++
          [⟨sample.by_alice, 12, .increment sample.alice⟩])).find sample.alice.value = some it' ∧
      10 ≤ it'.obj.last_modified) :=
  ⟨by decide,
    (last_modified_never_decreases sample.store
      [⟨sample.by_alice, 10, .increment sample.alice⟩,
       ⟨sample.by_alice, 12, .increment sample.alice⟩,
       ⟨sample.by_bob, 12, .reset sample.alice⟩,
       ⟨sample.by_alice, 15, .reset sample.alice⟩] sample.alice (by decide)
      [⟨sample.by_alice, 10, .increment sample.alice⟩]
      [⟨sample.by_bob, 12, .reset sample.alice⟩, ⟨sample.by_alice, 15, .reset sample.alice⟩]
      ⟨sample.by_alice, 12, .increment sample.alice⟩ rfl).1 (by decide) rfl rfl,
    (last_modified_never_decreases sample.store
      [⟨sample.by_alice, 10, .increment sample.alice⟩,
       ⟨sample.by_alice, 12, .increment sample.alice⟩,
       ⟨sample.by_bob, 12, .reset sample.alice⟩,
       ⟨sample.by_alice, 15, .reset sample.alice⟩] sample.alice (by decide)
      [⟨sample.by_alice, 10, .increment sample.alice⟩]
      [⟨sample.by_bob, 12, .reset sample.alice⟩, ⟨sample.by_alice, 15, .reset sample.alice⟩]
      ⟨sample.by_alice, 12, .increment sample.alice⟩ rfl).2.1
      ⟨sample.alice.value, ⟨sample.alice, 1, 10⟩⟩ (by decide)⟩

end counter

/-! ## Outcomes of the writing actions -/

namespace counter

open eosio

theorem execute_increment_absent (self : name) (t : counters_table) (u : name)
    (auth : List permission_level) (now : Nat)
    (ha : has_auth auth u = true) (hf : t.find u.value = none) :
    (execute self t ⟨auth, now, .increment u⟩).failure = none ∧
    (execute self t ⟨auth, now, .increment u⟩).table.find u.value =
      some ⟨u.value, ⟨u, 1, now⟩⟩ ∧
    (execute self t ⟨auth, now, .increment u⟩).inline_actions =
      [⟨self, string_to_name "notify", [⟨self, string_to_name "active"⟩], (u, 1)⟩] ∧
    (execute self t ⟨auth, now, .increment u⟩).console = [] := by
  rw [execute_of_apply_notify (c := ⟨auth, now, .increment u⟩)
    (increment_absent ⟨self, auth, now⟩ u t ha hf)]
  refine ⟨rfl, ?_, rfl, rfl⟩
  simp only [find_append, hf]
  simp

theorem execute_increment_present (self : name) (t : counters_table) (u : name)
    (auth : List permission_level) (now : Nat) (it : const_iterator)
    (ha : has_auth auth u = true) (hf : t.find u.value = some it) :
    (execute self t ⟨auth, now, .increment u⟩).failure = none ∧
    (execute self t ⟨auth, now, .increment u⟩).table.find u.value =
      some ⟨u.value, ⟨it.obj.user, (it.obj.value + 1) % 2 ^ 64, now⟩⟩ ∧
    (execute self t ⟨auth, now, .increment u⟩).inline_actions =
      [⟨self, string_to_name "notify", [⟨self, string_to_name "active"⟩],
        (u, (it.obj.value + 1) % 2 ^ 64)⟩] ∧
    (execute self t ⟨auth, now, .increment u⟩).console = [] := by
  rw [execute_of_apply_notify (c := ⟨auth, now, .increment u⟩)
    (increment_present ⟨self, auth, now⟩ u t ha hf)]
  refine ⟨rfl, ?_, rfl, rfl⟩
  simp only [find_modify_self hf]

theorem execute_decrement_positive (self : name) (t : counters_table) (u : name)
    (auth : List permission_level) (now : Nat) (it : const_iterator)
    (ha : has_auth auth u = true) (hf : t.find u.value = some it) (hv : 0 < it.obj.value) :
    (execute self t ⟨auth, now, .decrement u⟩).failure = none ∧
    (execute self t ⟨auth, now, .decrement u⟩).table.find u.value =
      some ⟨u.value, ⟨it.obj.user, (it.obj.value + 2 ^ 64 - 1) % 2 ^ 64, now⟩⟩ ∧
    (execute self t ⟨auth, now, .decrement u⟩).inline_actions =
      [⟨self, string_to_name "notify", [⟨self, string_to_name "active"⟩],
        (u, (it.obj.value + 2 ^ 64 - 1) % 2 ^ 64)⟩] ∧
    (execute self t ⟨auth, now, .decrement u⟩).console = [] := by
  rw [execute_of_apply_notify (c := ⟨auth, now, .decrement u⟩)
    (decrement_positive ⟨self, auth, now⟩ u t ha hf hv)]
  refine ⟨rfl, ?_, rfl, rfl⟩
  simp only [find_modify_self hf]

theorem execute_decrement_zero (self : name) (t : counters_table) (u : name)
    (auth : List permission_level) (now : Nat) (it : const_iterator)
    (ha : has_auth auth u = true) (hf : t.find u.value = some it) (hv : it.obj.value = 0) :
    execute self t ⟨auth, now, .decrement u⟩ =
      ⟨t, some (.assert_failure "Counter cannot be negative"), [], [], []⟩ := by
  rw [execute_of_apply_error (c := ⟨auth, now, .decrement u⟩)
    (decrement_zero ⟨self, auth, now⟩ u t ha hf hv)]
  rfl

theorem execute_reset_present (self : name) (t : counters_table) (u : name)
    (auth : List permission_level) (now : Nat) (it : const_iterator)
    (ha : has_auth auth u = true) (hf : t.find u.value = some it) :
    (execute self t ⟨auth, now, .reset u⟩).failure = none ∧
    (execute self t ⟨auth, now, .reset u⟩).table.find u.value =
      some ⟨u.value, ⟨it.obj.user, 0, now⟩⟩ ∧
    (execute self t ⟨auth, now, .reset u⟩).inline_actions =
      [⟨self, string_to_name "notify", [⟨self, string_to_name "active"⟩], (u, 0)⟩] ∧
    (execute self t ⟨auth, now, .reset u⟩).console = [] := by
  rw [execute_of_apply_notify (c := ⟨auth, now, .reset u⟩)
    (reset_present ⟨self, auth, now⟩ u t ha hf)]
  refine ⟨rfl, ?_, rfl, rfl⟩
  simp only [find_modify_self hf]

/-- The end-to-end scenario for any user: two increments, a decrement, a
reset, a rejected decrement and a read, from a table without a record of the
user. Each entry pairs the failure of a step with the value of the record
after it. -/
theorem scenario_steps (self : name) (t : counters_table) (u : name)
    (a1 a2 a3 a4 a5 a6 : List permission_level) (n1 n2 n3 n4 n5 n6 : Nat)
    (h1 : has_auth a1 u = true) (h2 : has_auth a2 u = true) (h3 : has_auth a3 u = true)
    (h4 : has_auth a4 u = true) (h5 : has_auth a5 u = true)
    (hf : t.find u.value = none) :
    (trace self t
        [⟨a1, n1, .increment u⟩, ⟨a2, n2, .increment u⟩, ⟨a3, n3, .decrement u⟩,
         ⟨a4, n4, .reset u⟩, ⟨a5, n5, .decrement u⟩, ⟨a6, n6, .getvalue u⟩]).map
      (fun e => (e.2.failure, (e.2.table.find u.value).map (fun it => it.obj.value),
        e.2.console)) =
      [(none, some 1, []), (none, some 2, []), (none, some 1, []), (none, some 0, []),
       (some (.assert_failure "Counter cannot be negative"), some 0, []),
       (none, some 0, [.str "Counter value for ", .account u, .str ": ", .uint 0])] := by
  simp only [trace, List.map]
  obtain ⟨e1, f1, -, c1⟩ := execute_increment_absent self t u a1 n1 h1 hf
  generalize execute self t ⟨a1, n1, .increment u⟩ = o1 at e1 f1 c1 ⊢
  obtain ⟨e2, f2, -, c2⟩ :=
    execute_increment_present self o1.table u a2 n2 ⟨u.value, ⟨u, 1, n1⟩⟩ h2 f1
  replace f2 : (execute self o1.table ⟨a2, n2, .increment u⟩).table.find u.value =
      some ⟨u.value, ⟨u, 2, n2⟩⟩ := f2
  generalize execute self o1.table ⟨a2, n2, .increment u⟩ = o2 at e2 f2 c2 ⊢
  obtain ⟨e3, f3, -, c3⟩ :=
    execute_decrement_positive self o2.table u a3 n3 ⟨u.value, ⟨u, 2, n2⟩⟩ h3 f2
      (by show 0 < 2; decide)
  replace f3 : (execute self o2.table ⟨a3, n3, .decrement u⟩).table.find u.value =
      some ⟨u.value, ⟨u, 1, n3⟩⟩ := by
    rw [f3]
    show some (⟨u.value, ⟨u, (2 + 2 ^ 64 - 1) % 2 ^ 64, n3⟩⟩ : const_iterator) = _
    norm_num
  generalize execute self o2.table ⟨a3, n3, .decrement u⟩ = o3 at e3 f3 c3 ⊢
  obtain ⟨e4, f4, -, c4⟩ :=
    execute_reset_present self o3.table u a4 n4 ⟨u.value, ⟨u, 1, n3⟩⟩ h4 f3
  replace f4 : (execute self o3.table ⟨a4, n4, .reset u⟩).table.find u.value =
      some ⟨u.value, ⟨u, 0, n4⟩⟩ := f4
  generalize execute self o3.table ⟨a4, n4, .reset u⟩ = o4 at e4 f4 c4 ⊢
  rw [execute_decrement_zero self o4.table u a5 n5 ⟨u.value, ⟨u, 0, n4⟩⟩ h5 f4 rfl,
    execute_getvalue self o4.table ⟨a6, n6, .getvalue u⟩ u rfl]
  simp only [e1, f1, c1, e2, f2, c2, e3, f3, c3, e4, f4, c4, Option.map_some']

/-- C12: from any table without a record of "alice", with the five writing
calls authorized by alice: `increment` leaves value 1, a second `increment`
value 2, `decrement` value 1, `reset` value 0; a further `decrement` fails on
the check "Counter cannot be negative" (the InvariantViolation of the error
taxonomy) and leaves value 0; `getvalue` then prints the value 0. Each entry
pairs the failure of a step with the value of alice's record after it and
what the step printed. -/
theorem alice_scenario (self : name) (t : counters_table)
    (a1 a2 a3 a4 a5 a6 : List permission_level) (n1 n2 n3 n4 n5 n6 : Nat)
    (h1 : has_auth a1 (string_to_name "alice") = true)
    (h2 : has_auth a2 (string_to_name "alice") = true)
    (h3 : has_auth a3 (string_to_name "alice") = true)
    (h4 : has_auth a4 (string_to_name "alice") = true)
    (h5 : has_auth a5 (string_to_name "alice") = true)
    (hf : t.find (string_to_name "alice").value = none) :
    (trace self t
        [⟨a1, n1, .increment (string_to_name "alice")⟩,
         ⟨a2, n2, .increment (string_to_name "alice")⟩,
         ⟨a3, n3, .decrement (string_to_name "alice")⟩,
         ⟨a4, n4, .reset (string_to_name "alice")⟩,
         ⟨a5, n5, .decrement (string_to_name "alice")⟩,
         ⟨a6, n6, .getvalue (string_to_name "alice")⟩]).map
      (fun e => (e.2.failure,
        (e.2.table.find (string_to_name "alice").value).map (fun it => it.obj.value),
        e.2.console)) =
      [(none, some 1, []), (none, some 2, []), (none, some 1, []), (none, some 0, []),
       (some (.assert_failure "Counter cannot be negative"), some 0, []),
       (none, some 0,
        [.str "Counter value for ", .account (string_to_name "alice"), .str ": ", .uint 0])] :=
  scenario_steps self t (string_to_name "alice") a1 a2 a3 a4 a5 a6 n1 n2 n3 n4 n5 n6
    h1 h2 h3 h4 h5 hf

theorem alice_scenario_witness :
    has_auth sample.by_alice (string_to_name "alice") = true ∧
    sample.only_bob.find (string_to_name "alice").value = none ∧
    (trace sample.store sample.only_bob
        [⟨sample.by_alice, 10, .increment (string_to_name "alice")⟩,
         ⟨sample.by_alice, 11, .increment (string_to_name "alice")⟩,
         ⟨sample.by_alice, 12, .decrement (string_to_name "alice")⟩,
         ⟨sample.by_alice, 13, .reset (string_to_name "alice")⟩,
         ⟨sample.by_alice, 14, .decrement (string_to_name "alice")⟩,
         ⟨[], 15, .getvalue (string_to_name "alice")⟩]).map
      (fun e => (e.2.failure,
        (e.2.table.find (string_to_name "alice").value).map (fun it => it.obj.value),
        e.2.console)) =
      [(none, some 1, []), (none, some 2, []), (none, some 1, []), (none, some 0, []),
       (some (.assert_failure "Counter cannot be negative"), some 0, []),
       (none, some 0,
        [.str "Counter value for ", .account (string_to_name "alice"), .str ": ", .uint 0])] :=
  ⟨by decide, by decide,
    alice_scenario sample.store sample.only_bob sample.by_alice sample.by_alice
      sample.by_alice sample.by_alice sample.by_alice [] 10 11 12 13 14 15
      (by decide) (by decide) (by decide) (by decide) (by decide) (by decide)⟩

/-- C13: for every table in which `u` has a record of value `2^64 - 1`, the
largest `uint64_t`, `increment(u)` authorized by `u` does not fail: the
stored value wraps to 0, which is `(v + 1) mod 2^64`, `last_modified` becomes
`now`, and the notification carries payload 0. -/
theorem increment_wraps_at_max (self : name) (t : counters_table) (u : name)
    (auth : List permission_level) (now : Nat) (it : const_iterator)
    (hauth : has_auth auth u = true) (hrec : t.find u.value = some it)
    (hmax : it.obj.value = 2 ^ 64 - 1) :
    (execute self t ⟨auth, now, .increment u⟩).failure = none ∧
    (execute self t ⟨auth, now, .increment u⟩).table.find u.value =
      some ⟨u.value, ⟨it.obj.user, 0, now⟩⟩ ∧
    (execute self t ⟨auth, now, .increment u⟩).inline_actions =
      [⟨self, string_to_name "notify", [⟨self, string_to_name "active"⟩], (u, 0)⟩] ∧
    (it.obj.value + 1) % 2 ^ 64 = 0 := by
  have hw : (it.obj.value + 1) % 2 ^ 64 = 0 := by rw [hmax]; norm_num
  obtain ⟨hs, hf, hi, -⟩ := execute_increment_present self t u auth now it hauth hrec
  rw [hw] at hf hi
  exact ⟨hs, hf, hi, hw⟩

theorem increment_wraps_at_max_witness :
    has_auth sample.by_alice sample.alice = true ∧
    (sample.both (2 ^ 64 - 1)).find sample.alice.value =
      some ⟨sample.alice.value, ⟨sample.alice, 2 ^ 64 - 1, 9⟩⟩ ∧
    (execute sample.store (sample.both (2 ^ 64 - 1))
      ⟨sample.by_alice, 1000, .increment sample.alice⟩).failure = none ∧
    (execute sample.store (sample.both (2 ^ 64 - 1))
      ⟨sample.by_alice, 1000, .increment sample.alice⟩).table.find sample.alice.value =
      some ⟨sample.alice.value, ⟨sample.alice, 0, 1000⟩⟩ ∧
    (execute sample.store (sample.both (2 ^ 64 - 1))
      ⟨sample.by_alice, 1000, .increment sample.alice⟩).inline_actions =
      [⟨sample.store, string_to_name "notify", [⟨sample.store, string_to_name "active"⟩],
        (sample.alice, 0)⟩] ∧
    (2 ^ 64 - 1 + 1) % 2 ^ 64 = 0 :=
  ⟨by decide, by decide,
    increment_wraps_at_max sample.store (sample.both (2 ^ 64 - 1)) sample.alice
      sample.by_alice 1000 ⟨sample.alice.value, ⟨sample.alice, 2 ^ 64 - 1, 9⟩⟩
      (by decide) (by decide) rfl⟩

/-- C14: for every table and every user `u`, `increment(u)` succeeds if and
only if the invocation carries an authorization of `u`: whatever the table
holds for `u` (no record, value 0, the largest value), an authorized
`increment` does not fail, and an unauthorized one fails on `require_auth`. -/
theorem increment_succeeds_iff_authorized (self : name) (t : counters_table) (u : name)
    (auth : List permission_level) (now : Nat) :
    ((execute self t ⟨auth, now, .increment u⟩).failure = none ↔ has_auth auth u = true) ∧
    ((execute self t ⟨auth, now, .increment u⟩).failure = some (.missing_auth u) ↔
      has_auth auth u = false) := by
  cases ha : has_auth auth u with
  | false =>
    rw [execute_of_apply_error (c := ⟨auth, now, .increment u⟩)
      (increment_unauthorized ⟨self, auth, now⟩ u (.start t) ha)]
    simp [outcome.aborted]
  | true =>
    cases hf : t.find u.value with
    | none => simp [(execute_increment_absent self t u auth now ha hf).1]
    | some it => simp [(execute_increment_present self t u auth now it ha hf).1]

/-- C15: for every table, every two distinct users `u` and `w`, and each of
`increment(u)`, `decrement(u)`, `reset(u)`, `getvalue(u)` and `notify(u, x)`,
under any authorization and whether it succeeds or fails: the lookup of the
record of `w` gives the same before and after (none stays none; a record
keeps its value and `last_modified`). -/
theorem other_records_untouched (self : name) (t : counters_table) (u w : name)
    (auth : List permission_level) (now : Nat) (hne : u ≠ w) :
    (execute self t ⟨auth, now, .increment u⟩).table.find w.value = t.find w.value ∧
    (execute self t ⟨auth, now, .decrement u⟩).table.find w.value = t.find w.value ∧
    (execute self t ⟨auth, now, .reset u⟩).table.find w.value = t.find w.value ∧
    (execute self t ⟨auth, now, .getvalue u⟩).table.find w.value = t.find w.value ∧
    ∀ x : Nat,
      (execute self t ⟨auth, now, .notify u x⟩).table.find w.value = t.find w.value := by
  have hk : w.value ≠ u.value := name_value_ne (Ne.symm hne)
  exact ⟨execute_find_other self t ⟨auth, now, .increment u⟩ w.value hk,
    execute_find_other self t ⟨auth, now, .decrement u⟩ w.value hk,
    execute_find_other self t ⟨auth, now, .reset u⟩ w.value hk,
    execute_find_other self t ⟨auth, now, .getvalue u⟩ w.value hk,
    fun x => execute_find_other self t ⟨auth, now, .notify u x⟩ w.value hk⟩

theorem other_records_untouched_witness :
    sample.alice ≠ sample.bob ∧
    (execute sample.store (sample.both 3)
      ⟨sample.by_alice, 1000, .increment sample.alice⟩).table.find sample.bob.value =
      (sample.both 3).find sample.bob.value ∧
    (execute sample.store (sample.both 3)
      ⟨sample.by_alice, 1000, .decrement sample.alice⟩).table.find sample.bob.value =
      (sample.both 3).find sample.bob.value ∧
    (execute sample.store (sample.both 3)
      ⟨sample.by_alice, 1000, .reset sample.alice⟩).table.find sample.bob.value =
      (sample.both 3).find sample.bob.value ∧
    (execute sample.store (sample.both 3)
      ⟨sample.by_alice, 1000, .getvalue sample.alice⟩).table.find sample.bob.value =
      (sample.both 3).find sample.bob.value ∧
    ∀ x : Nat,
      (execute sample.store (sample.both 3)
        ⟨sample.by_alice, 1000, .notify sample.alice x⟩).table.find sample.bob.value =
        (sample.both 3).find sample.bob.value :=
  ⟨by decide,
    other_records_untouched sample.store (sample.both 3) sample.alice sample.bob
      sample.by_alice 1000 (by decide)⟩

/-- A writing action that succeeds was authorized by its user and issued one
inline action: `notify` for that user, addressed to the contract itself under
its own `active` permission. -/
theorem execute_success_inline (self : name) (t : counters_table) (c : call)
    (hm : c.act.mutates = true) (hs : (execute self t c).failure = none) :
    has_auth c.authorization c.act.user = true ∧
    ∃ v, (execute self t c).inline_actions =
      [⟨self, string_to_name "notify", [⟨self, string_to_name "active"⟩],
        (c.act.user, v)⟩] := by
  obtain ⟨auth, now, act⟩ := c
  cases act with
  | increment u =>
    cases ha : has_auth auth u with
    | false =>
      rw [execute_of_apply_error (c := ⟨auth, now, .increment u⟩)
        (increment_unauthorized ⟨self, auth, now⟩ u (.start t) ha)] at hs
      simp [outcome.aborted] at hs
    | true =>
      refine ⟨ha, ?_⟩
      cases hf : t.find u.value with
      | none => exact ⟨_, (execute_increment_absent self t u auth now ha hf).2.2.1⟩
      | some it => exact ⟨_, (execute_increment_present self t u auth now it ha hf).2.2.1⟩
  | decrement u =>
    cases ha : has_auth auth u with
    | false =>
      rw [execute_of_apply_error (c := ⟨auth, now, .decrement u⟩)
        (decrement_unauthorized ⟨self, auth, now⟩ u (.start t) ha)] at hs
      simp [outcome.aborted] at hs
    | true =>
      refine ⟨ha, ?_⟩
      cases hf : t.find u.value with
      | none =>
        rw [execute_of_apply_error (c := ⟨auth, now, .decrement u⟩)
          (decrement_absent ⟨self, auth, now⟩ u t ha hf)] at hs
        simp [outcome.aborted] at hs
      | some it =>
        rcases Nat.eq_zero_or_pos it.obj.value with hv | hv
        · rw [execute_decrement_zero self t u auth now it ha hf hv] at hs
          simp at hs
        · exact ⟨_, (execute_decrement_positive self t u auth now it ha hf hv).2.2.1⟩
  | reset u =>
    cases ha : has_auth auth u with
    | false =>
      rw [execute_of_apply_error (c := ⟨auth, now, .reset u⟩)
        (reset_unauthorized ⟨self, auth, now⟩ u (.start t) ha)] at hs
      simp [outcome.aborted] at hs
    | true =>
      refine ⟨ha, ?_⟩
      cases hf : t.find u.value with
      | none =>
        rw [execute_of_apply_error (c := ⟨auth, now, .reset u⟩)
          (reset_absent ⟨self, auth, now⟩ u t ha hf)] at hs
        simp [outcome.aborted] at hs
      | some it => exact ⟨_, (execute_reset_present self t u auth now it ha hf).2.2.1⟩
  | getvalue u => cases hm
  | notify target value => cases hm

/-- C16: every successful `increment`, `decrement` or `reset` issues exactly
one inline action; it is a `notify` addressed to the contract itself and
carries the authorization of the contract account (under `active`), so
`require_auth(get_self())` inside `notify` passes for it: run on any state,
the issued action does not fail and only marks its target as recipient. Its
target is the user of the action, who authorized the call. -/
theorem mutation_issues_one_self_authorized_notify (self : name) (t : counters_table)
    (auth : List permission_level) (now : Nat) (act : invocation)
    (hm : act.mutates = true) (hs : (execute self t ⟨auth, now, act⟩).failure = none) :
    ∃ a : action,
      (execute self t ⟨auth, now, act⟩).inline_actions = [a] ∧
      a.account = self ∧ a.action_name = string_to_name "notify" ∧
      a.authorization = [⟨self, string_to_name "active"⟩] ∧
      has_auth a.authorization self = true ∧
      a.data.1 = act.user ∧ has_auth auth act.user = true ∧
      (∀ s : action_state,
        notify ⟨self, a.authorization, now⟩ a.data.1 a.data.2 s =
          .ok (require_recipient s act.user)) ∧
      (∀ s : action_state,
        run_inline self now s a = .ok (require_recipient s act.user)) := by
  obtain ⟨ha, v, hv⟩ := execute_success_inline self t ⟨auth, now, act⟩ hm hs
  refine ⟨_, hv, rfl, rfl, rfl, ?_, rfl, ha, ?_, ?_⟩
  · simp [has_auth]
  · intro s
    simp [notify_eq, has_auth]
  · intro s
    simp [run_inline, notify_eq, has_auth]

theorem mutation_issues_one_self_authorized_notify_witness :
    (invocation.decrement sample.alice).mutates = true ∧
    (execute sample.store (sample.both 3)
      ⟨sample.by_alice, 1000, .decrement sample.alice⟩).failure = none ∧
    ∃ a : action,
      (execute sample.store (sample.both 3)
        ⟨sample.by_alice, 1000, .decrement sample.alice⟩).inline_actions = [a] ∧
      a.account = sample.store ∧ a.action_name = string_to_name "notify" ∧
      a.authorization = [⟨sample.store, string_to_name "active"⟩] ∧
      has_auth a.authorization sample.store = true ∧
      a.data.1 = (invocation.decrement sample.alice).user ∧
      has_auth sample.by_alice (invocation.decrement sample.alice).user = true ∧
      (∀ s : action_state,
        notify ⟨sample.store, a.authorization, 1000⟩ a.data.1 a.data.2 s =
          .ok (require_recipient s (invocation.decrement sample.alice).user)) ∧
      (∀ s : action_state,
        run_inline sample.store 1000 s a =
          .ok (require_recipient s (invocation.decrement sample.alice).user)) :=
  ⟨by decide, by decide,
    mutation_issues_one_self_authorized_notify sample.store (sample.both 3) sample.by_alice
      1000 (.decrement sample.alice) (by decide) (by decide)⟩

/-- C17: with both calls authorized by `u`: when `u` has a record of value
`v < 2^64 - 1`, `increment(u)` followed by `decrement(u)` both succeed and
the value of the record is `v` again; when `u` has no record, both succeed
too and leave a record of `u` with value 0, not the absence there was. -/
theorem increment_then_decrement (self : name) (t : counters_table) (u : name)
    (a1 a2 : List permission_level) (n1 n2 : Nat)
    (h1 : has_auth a1 u = true) (h2 : has_auth a2 u = true) :
    (∀ it, t.find u.value = some it → it.obj.value < 2 ^ 64 - 1 →
      (execute self t ⟨a1, n1, .increment u⟩).failure = none ∧
      (execute self (execute self t ⟨a1, n1, .increment u⟩).table
        ⟨a2, n2, .decrement u⟩).failure = none ∧
      (execute self (execute self t ⟨a1, n1, .increment u⟩).table
        ⟨a2, n2, .decrement u⟩).table.find u.value =
        some ⟨u.value, ⟨it.obj.user, it.obj.value, n2⟩⟩) ∧
    (t.find u.value = none →
      (execute self t ⟨a1, n1, .increment u⟩).failure = none ∧
      (execute self (execute self t ⟨a1, n1, .increment u⟩).table
        ⟨a2, n2, .decrement u⟩).failure = none ∧
      (execute self (execute self t ⟨a1, n1, .increment u⟩).table
        ⟨a2, n2, .decrement u⟩).table.find u.value = some ⟨u.value, ⟨u, 0, n2⟩⟩) := by
  constructor
  · intro it hf hv
    obtain ⟨e1, f1, -, -⟩ := execute_increment_present self t u a1 n1 it h1 hf
    have hi : (it.obj.value + 1) % 2 ^ 64 = it.obj.value + 1 := Nat.mod_eq_of_lt (by omega)
    rw [hi] at f1
    obtain ⟨e2, f2, -, -⟩ := execute_decrement_positive self _ u a2 n2
      ⟨u.value, ⟨it.obj.user, it.obj.value + 1, n1⟩⟩ h2 f1 (Nat.succ_pos _)
    have hd : (it.obj.value + 1 + 2 ^ 64 - 1) % 2 ^ 64 = it.obj.value := by
      have e : it.obj.value + 1 + 2 ^ 64 - 1 = it.obj.value + 2 ^ 64 := by omega
      rw [e, Nat.add_mod_right]
      exact Nat.mod_eq_of_lt (by omega)
    refine ⟨e1, e2, ?_⟩
    rw [f2]
    show some (⟨u.value, ⟨it.obj.user, (it.obj.value + 1 + 2 ^ 64 - 1) % 2 ^ 64, n2⟩⟩ :
      const_iterator) = _
    rw [hd]
  · intro hf
    obtain ⟨e1, f1, -, -⟩ := execute_increment_absent self t u a1 n1 h1 hf
    obtain ⟨e2, f2, -, -⟩ := execute_decrement_positive self _ u a2 n2
      ⟨u.value, ⟨u, 1, n1⟩⟩ h2 f1 (by show 0 < 1; decide)
    refine ⟨e1, e2, ?_⟩
    rw [f2]
    show some (⟨u.value, ⟨u, (1 + 2 ^ 64 - 1) % 2 ^ 64, n2⟩⟩ : const_iterator) = _
    norm_num

theorem increment_then_decrement_witness :
    has_auth sample.by_alice sample.alice = true ∧
    ((sample.both 41).find sample.alice.value =
        some ⟨sample.alice.value, ⟨sample.alice, 41, 9⟩⟩ ∧
      41 < 2 ^ 64 - 1 ∧
      (execute sample.store (sample.both 41)
        ⟨sample.by_alice, 10, .increment sample.alice⟩).failure = none ∧
      (execute sample.store
        (execute sample.store (sample.both 41)
          ⟨sample.by_alice, 10, .increment sample.alice⟩).table
        ⟨sample.by_alice, 11, .decrement sample.alice⟩).failure = none ∧
      (execute sample.store
        (execute sample.store (sample.both 41)
          ⟨sample.by_alice, 10, .increment sample.alice⟩).table
        ⟨sample.by_alice, 11, .decrement sample.alice⟩).table.find sample.alice.value =
        some ⟨sample.alice.value, ⟨sample.alice, 41, 11⟩⟩) ∧
    (sample.only_bob.find sample.alice.value = none ∧
      (execute sample.store sample.only_bob
        ⟨sample.by_alice, 10, .increment sample.alice⟩).failure = none ∧
      (execute sample.store
        (execute sample.store sample.only_bob
          ⟨sample.by_alice, 10, .increment sample.alice⟩).table
        ⟨sample.by_alice, 11, .decrement sample.alice⟩).failure = none ∧
      (execute sample.store
        (execute sample.store sample.only_bob
          ⟨sample.by_alice, 10, .increment sample.alice⟩).table
        ⟨sample.by_alice, 11, .decrement sample.alice⟩).table.find sample.alice.value =
        some ⟨sample.alice.value, ⟨sample.alice, 0, 11⟩⟩) :=
  ⟨by decide,
    ⟨by decide, by decide,
      (increment_then_decrement sample.store (sample.both 41) sample.alice sample.by_alice
        sample.by_alice 10 11 (by decide) (by decide)).1
        ⟨sample.alice.value, ⟨sample.alice, 41, 9⟩⟩ (by decide) (by decide)⟩,
    ⟨by decide,
      (increment_then_decrement sample.store sample.only_bob sample.alice sample.by_alice
        sample.by_alice 10 11 (by decide) (by decide)).2 (by decide)⟩⟩

/-- The two properties of a well-kept table are kept by every invocation:
no key occurs twice, and every record sits under the key of its `user`. -/
theorem execute_keeps_keys (self : name) (t : counters_table) (c : call)
    (hn : (t.rows.map Prod.fst).Nodup) (hk : ∀ e ∈ t.rows, e.2.user.value = e.1) :
    ((execute self t c).table.rows.map Prod.fst).Nodup ∧
    ∀ e ∈ (execute self t c).table.rows, e.2.user.value = e.1 := by
  rcases execute_cases self t c with ⟨ht, -⟩ | ⟨-, -, hf, ht⟩ | ⟨-, -, it, v, hf, ht⟩
  · rw [ht]; exact ⟨hn, hk⟩
  · rw [ht]
    have hnot : ∀ e ∈ t.rows, e.1 ≠ c.act.user.value := by
      intro e he
      simp only [counters_table.find, Option.map_eq_none', List.find?_eq_none] at hf
      simpa using hf e he
    constructor
    · simp only [List.map_append, List.map_cons, List.map_nil]
      rw [List.nodup_append]
      refine ⟨hn, List.nodup_singleton _, ?_⟩
      intro k hk1 hk2
      rw [List.mem_singleton] at hk2
      obtain ⟨e, he, rfl⟩ := List.mem_map.mp hk1
      exact hnot e he hk2
    · intro e he
      rcases List.mem_append.mp he with he | he
      · exact hk e he
      · rw [List.mem_singleton] at he
        rw [he]
  · rw [ht]
    simp only [counters_table.find, Option.map_eq_some'] at hf
    obtain ⟨e0, he0, rfl⟩ := hf
    have hmem : e0 ∈ t.rows := List.mem_of_find?_eq_some he0
    simp only [counters_table.modify]
    constructor
    · have : (t.rows.map (fun e => if e.1 = e0.1 then
          (e.1, ({ e0.2 with value := v, last_modified := c.now } : counters)) else e)).map
          Prod.fst = t.rows.map Prod.fst := by
        rw [List.map_map]
        apply List.map_congr_left
        intro e _
        by_cases h : e.1 = e0.1 <;> simp [h]
      rw [this]; exact hn
    · intro e he
      obtain ⟨e1, he1, rfl⟩ := List.mem_map.mp he
      by_cases h : e1.1 = e0.1
      · simp only [h, if_true]
        exact hk e0 hmem
      · simp only [h, if_false]
        exact hk e1 he1

theorem run_keeps_keys (self : name) (cs : List call) :
    ∀ t : counters_table,
      (t.rows.map Prod.fst).Nodup → (∀ e ∈ t.rows, e.2.user.value = e.1) →
      ((run self t cs).rows.map Prod.fst).Nodup ∧
      ∀ e ∈ (run self t cs).rows, e.2.user.value = e.1 := by
  induction cs with
  | nil => intro t hn hk; exact ⟨hn, hk⟩
  | cons c rest ih =>
    intro t hn hk
    obtain ⟨hn', hk'⟩ := execute_keeps_keys self t c hn hk
    exact ih _ hn' hk'

/-- C18: in every table reached from the empty table by a sequence of
invocations, no key holds two records, every record is stored under its
primary key, which is the `value` of its `user`, and so no owner has two
records. -/
theorem reachable_table_one_record_per_owner (self : name) (cs : List call) :
    ((run self ⟨[]⟩ cs).rows.map Prod.fst).Nodup ∧
    (∀ e ∈ (run self ⟨[]⟩ cs).rows, e.2.primary_key = e.1 ∧ e.2.user.value = e.1) ∧
    ((run self ⟨[]⟩ cs).rows.map (fun e => e.2.user)).Nodup := by
  obtain ⟨hn, hk⟩ := run_keeps_keys self cs ⟨[]⟩ List.nodup_nil (by simp)
  refine ⟨hn, fun e he => ⟨hk e he, hk e he⟩, ?_⟩
  have hmap : (run self ⟨[]⟩ cs).rows.map Prod.fst =
      ((run self ⟨[]⟩ cs).rows.map (fun e => e.2.user)).map name.value := by
    rw [List.map_map]
    apply List.map_congr_left
    intro e he
    exact (hk e he).symm
  rw [hmap] at hn
  exact List.Nodup.of_map _ hn

end counter
